import Mathlib

/-!
Shallow embedding of `github.com/getlantern/flashlight/feed/feed.go`.

The Go file implements a feed retrieval-and-normalization pipeline:
locale resolution (`determineLocale`), endpoint construction (`getFeedURL`),
a fetch pipeline (`doGetFeed`) operating on a process-wide global `feed`,
a normalization pass (`processFeed`) and read accessors (`FeedByName`,
`NumFeedEntries`, `CurrentFeed`).

Modelling conventions:
- Go maps decoded from JSON are modelled as association lists with unique
  keys; lookup returns `Option`, where `none` models Go's zero value for a
  missing key (`nil` for a `*Source`, `nil` interface for a meta value).
- Go runtime panics (nil-pointer dereference on a missing `*Source`, index
  out of range on `feed.Entries[i]`, failing type assertion `aDesc.(string)`)
  are modelled as `none` results of `Option`-valued functions.
- The process-wide mutable global `feed *Feed` is modelled by explicit state
  passing of an `Option Feed` value (`none` models the `nil` pointer).
- External effects of the fetch pipeline (HTTP request construction, the
  proxied client factory, the transport, the gzip reader, the body read,
  JSON unmarshalling, the geolocation lookup) are oracles collected in a
  `FetchEnv` record; each failure branch of the Go code corresponds to one
  oracle answering "failure".
- Calls to the `FeedProvider.AddSource` and `FeedRetriever.AddFeed`
  collaborators are modelled by returning the list of calls in order.
-/

namespace LanternFeed

/-- Dynamic JSON values, modelling the `interface{}` payloads stored in a
`FeedItem`'s `Meta map[string]interface{}`.  `null` models a JSON `null`,
which Go's `encoding/json` decodes to a `nil` interface value. -/
inductive JSONValue where
  | null : JSONValue
  | bool (b : Bool) : JSONValue
  | num (n : Int) : JSONValue
  | str (s : String) : JSONValue
  | arr (xs : List JSONValue) : JSONValue
  | obj (fields : List (String × JSONValue)) : JSONValue

/-- Association-list lookup, modelling Go map indexing `m[k]` with the
comma-ok idiom: `some v` when the key is present, `none` when absent. -/
def assocLookup (k : String) : List (String × α) → Option α
  | [] => none
  | (k', v) :: rest => if k' = k then some v else assocLookup k rest

/-- `Source` from feed.go: a feed authority (BBC, NYT, Reddit, ...). -/
structure Source where
  feedUrl : String
  title : String
  url : String
  excludeFromAll : Bool
  entries : List Int

/-- `FeedItem` from feed.go: one article.  `description` is derived during
normalization (`json:"-"`), so it is empty after unmarshalling. -/
structure FeedItem where
  title : String
  link : String
  image : String
  meta : List (String × JSONValue)
  content : String
  source : String
  description : String

/-- `Feed` from feed.go.  `items` (`Items map[string]FeedItems`, `json:"-"`)
is a `nil` map (`none`) until `processFeed` populates it. -/
structure Feed where
  feeds : List (String × Source)
  entries : List FeedItem
  items : Option (List (String × List FeedItem))
  sorted : List String

/-- The constant `en = "en_US"` from feed.go. -/
def en : String := "en_US"

/-- The constant `defaultFeedEndpoint` from feed.go. -/
def defaultFeedEndpoint : String := "https://feeds.getiantem.org/%s/feed.json"

/-- The `supportedLocales` set from feed.go, as its membership test
(Go map-of-bool indexing: absent keys read as `false`). -/
def supportedLocales (l : String) : Bool :=
  l = "en_US" || l = "fa_IR" || l = "fa" || l = "ms_MY" || l = "zh_CN"

/-- Go `strings.EqualFold`, modelled as case-folded equality of the
character sequences. -/
def goEqualFold (a b : String) : Bool :=
  a.data.map Char.toLower == b.data.map Char.toLower

/-- Drop leading whitespace characters. -/
def trimLeftChars : List Char → List Char
  | [] => []
  | c :: cs => if c.isWhitespace then trimLeftChars cs else c :: cs

/-- Go `strings.TrimSpace`, modelled as dropping whitespace from both ends
of the character sequence. -/
def goTrimSpace (s : String) : String :=
  ⟨(trimLeftChars (trimLeftChars s.data).reverse).reverse⟩

/-- Substitute the first `%s` verb of a format template, modelling
`fmt.Sprintf(feedEndpoint, locale)` for the single-verb templates used
by feed.go. -/
def substFirstPercentS : List Char → List Char → List Char
  | [], _ => []
  | '%' :: 's' :: rest, arg => arg ++ rest
  | c :: cs, arg => c :: substFirstPercentS cs arg

/-- `fmt.Sprintf(template, arg)` for a template with one `%s` verb. -/
def goSprintfS (template arg : String) : String :=
  ⟨substFirstPercentS template.data arg.data⟩

/-- `determineLocale` from feed.go.  The external
`geolookup.GetCountry(duration)` service is the oracle `getCountry`,
applied — exactly as in the code — to a 10 second bound; an empty string
models a failed or timed-out lookup. -/
def determineLocale (getCountry : Nat → String) (defaultLocale : String) : String :=
  let dl := if defaultLocale = "" then en else defaultLocale
  if !(goEqualFold en dl) then dl
  else
    let country := getCountry 10
    if country = "" then dl
    else if goEqualFold "ir" country then "fa_IR"
    else if goEqualFold "my" country then "ms_MY"
    else dl

/-- `getFeedURL` from feed.go. -/
def getFeedURL (getCountry : Nat → String) (feedEndpoint defaultLocale : String) : String :=
  goSprintfS feedEndpoint (determineLocale getCountry defaultLocale)

/-- `GetFeedURL` from feed.go (public wrapper over `getFeedURL`). -/
def GetFeedURL (getCountry : Nat → String) (defaultLocale : String) : String :=
  getFeedURL getCountry defaultFeedEndpoint defaultLocale

/-- The description derivation of `processFeed` for one meta value:
```
desc := ""
if aDesc := entry.Meta["description"]; aDesc != nil {
    desc = strings.TrimSpace(aDesc.(string))
}
```
`none`/`JSONValue.null` model the `nil` interface (key absent, or JSON
null), leaving `desc` empty; a non-string value makes the unchecked type
assertion `aDesc.(string)` panic, modelled as `none`. -/
def descFromMeta : Option JSONValue → Option String
  | none => some ""
  | some JSONValue.null => some ""
  | some (JSONValue.str s) => some (goTrimSpace s)
  | some _ => none

/-- Description derivation of `processFeed` for one entry, including the
fallback `if desc == "" { desc = entry.Content }`. -/
def deriveDescription (e : FeedItem) : Option String :=
  (descFromMeta (assocLookup "description" e.meta)).map
    (fun d => if d = "" then e.content else d)

/-- The first loop of `processFeed`: set every entry's `Description`.
`none` models a panic on the first entry with a non-string meta
description. -/
def deriveDescriptions : List FeedItem → Option (List FeedItem)
  | [] => some []
  | e :: es =>
    match deriveDescription e with
    | none => none
    | some d =>
      match deriveDescriptions es with
      | none => none
      | some es' => some ({ e with description := d } :: es')

/-- The second loop of `processFeed`, building the "all" bucket:
```
for _, entry := range feed.Entries {
    if !feed.Feeds[entry.Source].ExcludeFromAll {
        all = append(all, entry)
    }
}
```
A missing source key makes `feed.Feeds[entry.Source]` a `nil` pointer and
`.ExcludeFromAll` panic, modelled as `none`. -/
def buildAll (feeds : List (String × Source)) : List FeedItem → Option (List FeedItem)
  | [] => some []
  | e :: es =>
    match assocLookup e.source feeds with
    | none => none
    | some src =>
      match buildAll feeds es with
      | none => none
      | some rest => some (if src.excludeFromAll then rest else e :: rest)

/-- The third loop of `processFeed`: the ordered `AddSource` calls made on
the `FeedProvider` for the keys of `feed.Sorted` (missing keys and empty
titles are skipped with a log message only). -/
def sourceCalls (feeds : List (String × Source)) : List String → List String
  | [] => []
  | key :: rest =>
    match assocLookup key feeds with
    | none => sourceCalls feeds rest
    | some src =>
      if src.title = "" then sourceCalls feeds rest
      else src.title :: sourceCalls feeds rest

/-- `feed.Items[k] = append(feed.Items[k], v)` on the items map: append at
an existing key, or create the key (Go map indexing on a missing key yields
a `nil` slice, so `append` starts a fresh one). -/
def appendAt (k : String) (v : FeedItem) : List (String × List FeedItem) → List (String × List FeedItem)
  | [] => [(k, [v])]
  | (k', vs) :: rest =>
    if k' = k then (k', vs ++ [v]) :: rest
    else (k', vs) :: appendAt k v rest

/-- Inner loop of the final `processFeed` pass, for one `Source`:
```
for _, i := range s.Entries {
    entry := feed.Entries[i]
    feed.Items[s.Title] = append(feed.Items[s.Title], entry)
}
```
An index outside `[0, len entries)` makes `feed.Entries[i]` panic,
modelled as `none`. -/
def addSourceEntries (es : List FeedItem) (title : String)
    (items : List (String × List FeedItem)) :
    List Int → Option (List (String × List FeedItem))
  | [] => some items
  | i :: is =>
    if h : 0 ≤ i ∧ i.toNat < es.length then
      addSourceEntries es title (appendAt title (es.get ⟨i.toNat, h.2⟩) items) is
    else none

/-- Final pass of `processFeed`: per-source buckets, iterating the sources
of `feed.Feeds` (the Go map iteration is modelled by association-list
order). -/
def buildBuckets (es : List FeedItem) (items : List (String × List FeedItem)) :
    List (String × Source) → Option (List (String × List FeedItem))
  | [] => some items
  | (_, src) :: rest =>
    match addSourceEntries es src.title items src.entries with
    | none => none
    | some items' => buildBuckets es items' rest

/-- `processFeed` from feed.go.  Returns the normalized feed (`none` models
a panic) together with the ordered list of `AddSource` calls made on the
`FeedProvider` before returning or panicking.  The phases run in source
order: descriptions, the "all" bucket (stored under `allStr`), the
`AddSource` notifications, then the per-source buckets. -/
def processFeed (allStr : String) (f : Feed) : Option Feed × List String :=
  match deriveDescriptions f.entries with
  | none => (none, [])
  | some es =>
    match buildAll f.feeds es with
    | none => (none, [])
    | some all =>
      let items0 := [(allStr, all)]
      let calls := sourceCalls f.feeds f.sorted
      match buildBuckets es items0 f.feeds with
      | none => (none, calls)
      | some items => (some { f with entries := es, items := some items }, calls)

/-- `handleError` from feed.go: `feed = nil` (plus a log line). -/
def handleError (_st : Option Feed) : Option Feed :=
  none

/-- `CurrentFeed` from feed.go: returns the shared global as-is. -/
def CurrentFeed (st : Option Feed) : Option Feed :=
  st

/-- `NumFeedEntries` from feed.go: `len(feed.Entries)`; dereferencing a
`nil` global panics, modelled as `none`. -/
def NumFeedEntries (st : Option Feed) : Option Nat :=
  match st with
  | none => none
  | some f => some f.entries.length

/-- `FeedByName` from feed.go: the ordered `AddFeed(title, description,
image, link)` calls made on the `FeedRetriever`.  Yields no calls when the
global is `nil`, its `Items` map is `nil`, or the name is absent. -/
def FeedByName (st : Option Feed) (name : String) : List (String × String × String × String) :=
  match st with
  | none => []
  | some f =>
    match f.items with
    | none => []
    | some items =>
      match assocLookup name items with
      | none => []
      | some its => its.map (fun i => (i.title, i.description, i.image, i.link))

/-- Oracles for the external effects of `doGetFeed`, one per failure branch
of the Go code.  The two request-shaped oracles receive the feed URL the
code builds. -/
structure FetchEnv where
  getCountry : Nat → String
  newRequestOk : String → Bool
  clientOk : Bool
  doRequestOk : String → Bool
  gzipOk : Bool
  readOk : Bool
  parsed : Option Feed

/-- The locale substitution at the top of `doGetFeed`:
`if !supportedLocales[locale] { locale = en }`. -/
def pipelineResolvedLocale (locale : String) : String :=
  if supportedLocales locale then locale else en

/-- The feed URL `doGetFeed` builds: `getFeedURL(feedEndpoint, locale)`
after the supported-locale substitution. -/
def pipelineFeedURL (getCountry : Nat → String) (feedEndpoint locale : String) : String :=
  getFeedURL getCountry feedEndpoint (pipelineResolvedLocale locale)

/-- `doGetFeed` from feed.go.  The global `feed` is threaded explicitly:
`prev` is its value on entry (immediately overwritten by `feed = &Feed{}`),
and the result carries its value on return together with the `AddSource`
calls.  The outer `none` models a panic escaping from `processFeed`. -/
def doGetFeed (env : FetchEnv) (feedEndpoint locale allStr proxyAddr : String)
    (_prev : Option Feed) : Option (Option Feed × List String) :=
  let st : Option Feed := some { feeds := [], entries := [], items := none, sorted := [] }
  let feedURL := pipelineFeedURL env.getCountry feedEndpoint locale
  if !(env.newRequestOk feedURL) then some (handleError st, [])
  else if proxyAddr ≠ "" && !env.clientOk then some (handleError st, [])
  else if !(env.doRequestOk feedURL) then some (handleError st, [])
  else if !env.gzipOk then some (handleError st, [])
  else if !env.readOk then some (handleError st, [])
  else
    match env.parsed with
    | none => some (handleError st, [])
    | some f =>
      match processFeed allStr f with
      | (none, _) => none
      | (some f', calls) => some (some f', calls)

/-- `GetFeed` from feed.go: `doGetFeed` at the default endpoint. -/
def GetFeed (env : FetchEnv) (locale allStr proxyAddr : String)
    (prev : Option Feed) : Option (Option Feed × List String) :=
  doGetFeed env defaultFeedEndpoint locale allStr proxyAddr prev

/-- The fetch pipeline fails before reaching `processFeed`: one of request
construction, proxied-client construction (only consulted when a proxy
address is supplied), transport, gzip-reader construction, body read, or
JSON unmarshalling reports an error. -/
def fetchFails (env : FetchEnv) (feedEndpoint locale proxyAddr : String) : Prop :=
  let feedURL := pipelineFeedURL env.getCountry feedEndpoint locale
  env.newRequestOk feedURL = false ∨
  (proxyAddr ≠ "" ∧ env.clientOk = false) ∨
  env.doRequestOk feedURL = false ∨
  env.gzipOk = false ∨
  env.readOk = false ∨
  env.parsed = none

/-- Spec-side membership condition for the "all" bucket (stated from the
spec's words, for comparison with `buildAll`): the entry's source key
resolves to a known source whose `excludeFromAll` is false. -/
def specIncludedInAll (feeds : List (String × Source)) (e : FeedItem) : Bool :=
  match assocLookup e.source feeds with
  | some src => !src.excludeFromAll
  | none => false

/-- The meta description of an entry is absent, null, or a string — the
condition under which the description derivation cannot panic. -/
def metaDescOk (e : FeedItem) : Bool :=
  match assocLookup "description" e.meta with
  | none => true
  | some JSONValue.null => true
  | some (JSONValue.str _) => true
  | some _ => false

/-! Concrete feed documents used as witnesses and counterexamples. -/

/-- A source whose single entry index is 0. -/
def w1src : Source :=
  { feedUrl := "", title := "S", url := "", excludeFromAll := false, entries := [0] }

def w1item : FeedItem :=
  { title := "t1", link := "l1", image := "i1", meta := [], content := "c1",
    source := "s", description := "" }

/-- A well-formed one-entry document: the entry's source resolves. -/
def w1doc : Feed :=
  { feeds := [("s", w1src)], entries := [w1item], items := none, sorted := ["s"] }

def w1norm : FeedItem :=
  { w1item with description := "c1" }

/-- The normalization of `w1doc` under the all-label `"all"`. -/
def w1out : Feed :=
  { w1doc with
    entries := [w1norm],
    items := some [("all", [w1norm]), ("S", [w1norm])] }

/-- An entry whose source key `"ghost"` is absent from the sources map. -/
def ghostItem : FeedItem :=
  { title := "tg", link := "lg", image := "ig", meta := [], content := "cg",
    source := "ghost", description := "" }

/-- A document with one entry whose source key resolves to nothing. -/
def ghostDoc : Feed :=
  { feeds := [], entries := [ghostItem], items := none, sorted := [] }

/-- A source with the out-of-range entry index 99. -/
def oorSrc : Source :=
  { feedUrl := "", title := "OOR", url := "", excludeFromAll := false, entries := [99] }

def oorItem : FeedItem :=
  { title := "t2", link := "l2", image := "i2", meta := [], content := "c2",
    source := "s", description := "" }

/-- A document with 3 entries and a source referencing entry index 99. -/
def oorDoc : Feed :=
  { feeds := [("s", oorSrc)], entries := [oorItem, oorItem, oorItem],
    items := none, sorted := [] }

/-- A previously published feed document (empty but present). -/
def w3feed : Feed :=
  { feeds := [], entries := [], items := none, sorted := [] }

/-- A fetch environment whose body read fails; everything else succeeds. -/
def w3env : FetchEnv :=
  { getCountry := fun _ => "", newRequestOk := fun _ => true, clientOk := true,
    doRequestOk := fun _ => true, gzipOk := true, readOk := false,
    parsed := some w3feed }

/-- An entry carrying a string meta description that trims to `"hi"`. -/
def w5item : FeedItem :=
  { title := "t5", link := "l5", image := "i5",
    meta := [("description", JSONValue.str "  hi  ")], content := "c5",
    source := "s5", description := "" }

def w5src : Source :=
  { feedUrl := "", title := "S5", url := "", excludeFromAll := false, entries := [] }

def w5doc : Feed :=
  { feeds := [("s5", w5src)], entries := [w5item], items := none, sorted := [] }

def w5norm : FeedItem :=
  { w5item with description := "hi" }

/-- The normalization of `w5doc` under the all-label `"all5"`. -/
def w5out : Feed :=
  { w5doc with
    entries := [w5norm],
    items := some [("all5", [w5norm])] }

/-- An entry with items published under the name `"bbc"`. -/
def w8item : FeedItem :=
  { title := "t8", link := "l8", image := "i8", meta := [], content := "c8",
    source := "bbc", description := "d8" }

def w8feed : Feed :=
  { feeds := [], entries := [w8item], items := some [("bbc", [w8item])], sorted := [] }

/-- A source with a non-empty title, for the `AddSource` loop. -/
def w9src : Source :=
  { feedUrl := "", title := "T9", url := "", excludeFromAll := false, entries := [] }

/-- An entry whose meta description is present but is a number, so the type
assertion `aDesc.(string)` fails on it. -/
def badDescItem : FeedItem :=
  { title := "tb", link := "lb", image := "ib",
    meta := [("description", JSONValue.num 3)], content := "cb",
    source := "sb", description := "" }

/-- A document containing `badDescItem`. -/
def badDescDoc : Feed :=
  { feeds := [], entries := [badDescItem], items := none, sorted := [] }

/-- An entry with a well-typed (string) meta description. -/
def w10ok : FeedItem :=
  { title := "tk", link := "lk", image := "ik",
    meta := [("description", JSONValue.str "x")], content := "ck",
    source := "sk", description := "" }

/-! Helper lemmas about the normalization passes. -/

/-- When the "all"-bucket loop completes without a nil-pointer panic, its
result is the ordered filter of the entries by the spec's membership
condition. -/
theorem buildAll_eq_filter (feeds : List (String × Source)) :
    ∀ (es l : List FeedItem), buildAll feeds es = some l →
      l = es.filter (fun e => specIncludedInAll feeds e) := by
  intro es
  induction es with
  | nil =>
    intro l h
    simp only [buildAll, Option.some.injEq] at h
    simp [← h]
  | cons e es ih =>
    intro l h
    simp only [buildAll] at h
    cases hs : assocLookup e.source feeds with
    | none => rw [hs] at h; simp at h
    | some src =>
      rw [hs] at h
      cases hb : buildAll feeds es with
      | none => rw [hb] at h; simp at h
      | some rest =>
        rw [hb] at h
        simp only [Option.some.injEq] at h
        have hrest := ih rest hb
        subst h
        cases hex : src.excludeFromAll <;>
          simp [List.filter_cons, specIncludedInAll, hs, hex, hrest]

/-- Appending at a key leaves lookups at other keys unchanged. -/
theorem appendAt_lookup_ne (k a : String) (v : FeedItem) (h : a ≠ k) :
    ∀ items : List (String × List FeedItem),
      assocLookup a (appendAt k v items) = assocLookup a items := by
  intro items
  induction items with
  | nil => simp [appendAt, assocLookup, Ne.symm h]
  | cons p rest ih =>
    obtain ⟨k', vs⟩ := p
    simp only [appendAt]
    by_cases hk : k' = k
    · subst hk
      simp [assocLookup, Ne.symm h]
    · rw [if_neg hk]
      by_cases ha : k' = a
      · subst ha
        simp [assocLookup]
      · simp [assocLookup, ha, ih]

/-- A source's bucket pass leaves lookups at other labels unchanged. -/
theorem addSourceEntries_lookup_ne (es : List FeedItem) (title a : String) (h : a ≠ title) :
    ∀ (is : List Int) (items items' : List (String × List FeedItem)),
      addSourceEntries es title items is = some items' →
      assocLookup a items' = assocLookup a items := by
  intro is
  induction is with
  | nil =>
    intro items items' hh
    simp only [addSourceEntries, Option.some.injEq] at hh
    rw [hh]
  | cons i is ih =>
    intro items items' hh
    simp only [addSourceEntries] at hh
    split at hh
    · rw [ih _ _ hh, appendAt_lookup_ne _ _ _ h]
    · exact absurd hh (by simp)

/-- The per-source bucket pass leaves the lookup at a label no source title
carries unchanged. -/
theorem buildBuckets_lookup_ne (es : List FeedItem) (a : String) :
    ∀ (feeds : List (String × Source)) (items items' : List (String × List FeedItem)),
      (∀ p ∈ feeds, p.2.title ≠ a) →
      buildBuckets es items feeds = some items' →
      assocLookup a items' = assocLookup a items := by
  intro feeds
  induction feeds with
  | nil =>
    intro items items' _ hh
    simp only [buildBuckets, Option.some.injEq] at hh
    rw [hh]
  | cons p rest ih =>
    intro items items' hne hh
    obtain ⟨k, src⟩ := p
    simp only [buildBuckets] at hh
    cases haz : addSourceEntries es src.title items src.entries with
    | none => rw [haz] at hh; simp at hh
    | some items1 =>
      rw [haz] at hh
      have h1 : assocLookup a items1 = assocLookup a items :=
        addSourceEntries_lookup_ne es src.title a
          (Ne.symm (hne (k, src) (by simp))) _ _ _ haz
      have h2 := ih items1 items' (fun q hq => hne q (by simp [hq])) hh
      rw [h2, h1]

/-- Inversion of `processFeed`: a successful normalization decomposes into
its four passes run in order. -/
theorem processFeed_eq_some (allStr : String) (f f' : Feed) (calls : List String)
    (h : processFeed allStr f = (some f', calls)) :
    ∃ es all items, deriveDescriptions f.entries = some es ∧
      buildAll f.feeds es = some all ∧
      buildBuckets es [(allStr, all)] f.feeds = some items ∧
      f' = { f with entries := es, items := some items } ∧
      calls = sourceCalls f.feeds f.sorted := by
  simp only [processFeed] at h
  split at h
  · simp at h
  next es hd =>
    split at h
    · simp at h
    next all ha =>
      split at h
      · simp at h
      next items hb =>
        simp only [Prod.mk.injEq, Option.some.injEq] at h
        exact ⟨es, all, items, hd, ha, hb, h.1.symm, h.2.symm⟩

/-- The description pass preserves length and rewrites each entry's
description to the value `deriveDescription` computes for it. -/
theorem deriveDescriptions_spec :
    ∀ (es es' : List FeedItem), deriveDescriptions es = some es' →
      es'.length = es.length ∧
      ∀ (i : Nat) (hi : i < es.length) (hi' : i < es'.length),
        deriveDescription (es.get ⟨i, hi⟩) = some ((es'.get ⟨i, hi'⟩).description) := by
  intro es
  induction es with
  | nil =>
    intro es' h
    simp only [deriveDescriptions, Option.some.injEq] at h
    subst h
    exact ⟨rfl, fun i hi => absurd hi (by simp)⟩
  | cons e es ih =>
    intro es' h
    simp only [deriveDescriptions] at h
    cases hd : deriveDescription e with
    | none => rw [hd] at h; simp at h
    | some d =>
      rw [hd] at h
      cases hr : deriveDescriptions es with
      | none => rw [hr] at h; simp at h
      | some tail =>
        rw [hr] at h
        simp only [Option.some.injEq] at h
        obtain ⟨hlen, hget⟩ := ih tail hr
        subst h
        refine ⟨by simp [hlen], ?_⟩
        intro i hi hi'
        cases i with
        | zero => simpa using hd
        | succ n =>
          have hn : n < es.length := by simpa using hi
          have hn' : n < tail.length := by simpa using hi'
          simpa using hget n hn hn'

/-! Claim theorems. -/

/-- C1, counterexample: on a document with one entry whose source key
(`"ghost"`) is absent from the sources map, normalization does not exclude
the entry and proceed — it faults (nil-pointer dereference on
`feed.Feeds[entry.Source].ExcludeFromAll`), so no "all" bucket exists at
all. -/
theorem processFeed_missing_source_faults :
    assocLookup ghostItem.source ghostDoc.feeds = none ∧
    (processFeed "allLabel" ghostDoc).1 = none :=
  ⟨rfl, rfl⟩

/-- C1 (amended): when normalization completes (which requires every
entry's source key to resolve — an unresolved key makes it fault instead of
excluding the entry) and no source's title collides with the caller's
"all" label, the "all" bucket is exactly the ordered filter of the
entries whose source key resolves to a source with `excludeFromAll`
false; membership in the bucket is equivalent to that condition and the
original entry order is preserved. -/
theorem processFeed_all_bucket_amended (allStr : String) (f f' : Feed) (calls : List String)
    (hp : processFeed allStr f = (some f', calls))
    (hnc : ∀ p ∈ f.feeds, p.2.title ≠ allStr) :
    ∃ es itemsL,
      deriveDescriptions f.entries = some es ∧
      f'.entries = es ∧
      f'.items = some itemsL ∧
      assocLookup allStr itemsL = some (es.filter (fun e => specIncludedInAll f.feeds e)) ∧
      ∀ e, e ∈ es.filter (fun e => specIncludedInAll f.feeds e) ↔
        (e ∈ es ∧ specIncludedInAll f.feeds e = true) := by
  obtain ⟨es, all, items, hd, ha, hb, hf, _hc⟩ := processFeed_eq_some allStr f f' calls hp
  refine ⟨es, items, hd, by rw [hf], by rw [hf], ?_, ?_⟩
  · have hlk := buildBuckets_lookup_ne es allStr f.feeds [(allStr, all)] items hnc hb
    rw [hlk]
    have hbase : assocLookup allStr [(allStr, all)] = some all := by simp [assocLookup]
    rw [hbase, buildAll_eq_filter f.feeds es all ha]
  · intro e
    simp [List.mem_filter]

/-- C1, witness: the amended theorem applied to a concrete well-formed
document. -/
theorem processFeed_all_bucket_amended_witness :
    ∃ es itemsL,
      deriveDescriptions w1doc.entries = some es ∧
      w1out.entries = es ∧
      w1out.items = some itemsL ∧
      assocLookup "all" itemsL = some (es.filter (fun e => specIncludedInAll w1doc.feeds e)) ∧
      ∀ e, e ∈ es.filter (fun e => specIncludedInAll w1doc.feeds e) ↔
        (e ∈ es ∧ specIncludedInAll w1doc.feeds e = true) :=
  processFeed_all_bucket_amended "all" w1doc w1out ["S"] rfl (by decide)

/-- C2: a `Source` with `entryIndices = [99]` over a 3-entry document makes
normalization fault (index out of range on `feed.Entries[i]`) instead of
skipping the index as the spec requires. -/
theorem processFeed_out_of_range_index_faults :
    oorSrc.entries = [99] ∧ oorDoc.entries.length = 3 ∧
    (processFeed "all" oorDoc).1 = none :=
  ⟨rfl, rfl, rfl⟩

/-- C5: after a completed normalization, each entry's derived description
is the trimmed meta description when that is a non-empty string, and the
entry's content otherwise (meta key absent, null, or trimming to empty);
the assignment also happens when both are empty. -/
theorem processFeed_description_derivation (allStr : String) (f f' : Feed) (calls : List String)
    (hp : processFeed allStr f = (some f', calls)) :
    f'.entries.length = f.entries.length ∧
    ∀ (i : Nat) (hi : i < f.entries.length) (hi' : i < f'.entries.length),
      (assocLookup "description" (f.entries.get ⟨i, hi⟩).meta = none →
        (f'.entries.get ⟨i, hi'⟩).description = (f.entries.get ⟨i, hi⟩).content) ∧
      (assocLookup "description" (f.entries.get ⟨i, hi⟩).meta = some JSONValue.null →
        (f'.entries.get ⟨i, hi'⟩).description = (f.entries.get ⟨i, hi⟩).content) ∧
      (∀ s, assocLookup "description" (f.entries.get ⟨i, hi⟩).meta = some (JSONValue.str s) →
        (f'.entries.get ⟨i, hi'⟩).description =
          (if goTrimSpace s = "" then (f.entries.get ⟨i, hi⟩).content else goTrimSpace s)) := by
  obtain ⟨es, all, items, hd, _ha, _hb, hf, _hc⟩ := processFeed_eq_some allStr f f' calls hp
  subst hf
  obtain ⟨hlen, hget⟩ := deriveDescriptions_spec f.entries es hd
  dsimp only
  refine ⟨hlen, ?_⟩
  intro i hi hi'
  have hD := hget i hi hi'
  refine ⟨?_, ?_, ?_⟩
  · intro hl
    simp only [deriveDescription, hl, descFromMeta] at hD
    simp at hD
    exact hD.symm
  · intro hl
    simp only [deriveDescription, hl, descFromMeta] at hD
    simp at hD
    exact hD.symm
  · intro s hl
    simp only [deriveDescription, hl, descFromMeta] at hD
    simp at hD
    exact hD.symm

/-- C5, witness: the description theorem applied to a document whose sole
entry carries the string meta description `"  hi  "`. -/
theorem processFeed_description_derivation_witness :
    (w5out.entries.get ⟨0, by decide⟩).description =
      (if goTrimSpace "  hi  " = "" then (w5doc.entries.get ⟨0, by decide⟩).content
       else goTrimSpace "  hi  ") :=
  ((processFeed_description_derivation "all5" w5doc w5out [] rfl).2 0 (by decide)
    (by decide)).2.2 "  hi  " rfl

/-- C3: whenever any step of the fetch pipeline fails, `doGetFeed` returns
with the shared feed state cleared to `nil` (regardless of what it held
before) and no `AddSource` calls made; `CurrentFeed` on the resulting state
yields absent. -/
theorem doGetFeed_failure_clears_state (env : FetchEnv)
    (feedEndpoint locale allStr proxyAddr : String) (prev : Option Feed)
    (h : fetchFails env feedEndpoint locale proxyAddr) :
    doGetFeed env feedEndpoint locale allStr proxyAddr prev = some (none, []) ∧
    ∀ st calls, doGetFeed env feedEndpoint locale allStr proxyAddr prev = some (st, calls) →
      CurrentFeed st = none := by
  have key : doGetFeed env feedEndpoint locale allStr proxyAddr prev = some (none, []) := by
    simp only [doGetFeed, fetchFails, handleError] at h ⊢
    split
    · rfl
    next h1 =>
      split
      · rfl
      next h2 =>
        split
        · rfl
        next h3 =>
          split
          · rfl
          next h4 =>
            split
            · rfl
            next h5 =>
              rcases h with hA | hA | hA | hA | hA | hA
              · simp [hA] at h1
              · simp [hA.1, hA.2] at h2
              · simp [hA] at h3
              · simp [hA] at h4
              · simp [hA] at h5
              · rw [hA]
  refine ⟨key, ?_⟩
  intro st calls heq
  rw [key] at heq
  simp only [Option.some.injEq, Prod.mk.injEq] at heq
  rw [← heq.1]
  rfl

/-- C3, witness: a fetch whose body read fails clears a previously
populated feed state. -/
theorem doGetFeed_failure_clears_state_witness :
    doGetFeed w3env defaultFeedEndpoint "en_US" "all" "" (some w3feed) = some (none, []) :=
  (doGetFeed_failure_clears_state w3env defaultFeedEndpoint "en_US" "all" "" (some w3feed)
    (Or.inr (Or.inr (Or.inr (Or.inr (Or.inl rfl)))))).1

/-- C6, counterexample: for the unsupported locale `"xx"`, when geolocation
reports country `IR` the locale substituted into the endpoint template is
`fa_IR`, not `en_US` — so the URL is not built with `en_US`. -/
theorem pipelineFeedURL_not_en_counterexample :
    supportedLocales "xx" = false ∧
    determineLocale (fun _ => "IR") (pipelineResolvedLocale "xx") = "fa_IR" ∧
    pipelineFeedURL (fun _ => "IR") defaultFeedEndpoint "xx" ≠
      goSprintfS defaultFeedEndpoint en :=
  ⟨by decide, by decide, by decide⟩

/-- `determineLocale` at the default locale `en_US` reduces to the
country-mapping of the 10-second-bounded geolocation result. -/
theorem determineLocale_en (g : Nat → String) :
    determineLocale g en = (if g 10 = "" then en
      else if goEqualFold "ir" (g 10) then "fa_IR"
      else if goEqualFold "my" (g 10) then "ms_MY" else en) := by
  simp only [determineLocale, ite_self]
  rw [if_neg (by decide : ¬(!goEqualFold en en) = true)]

/-- C6 (amended): an unsupported requested locale is substituted with the
default `en_US` before URL construction; the locale actually used to build
the endpoint URL is then `determineLocale` of `en_US`, which is `en_US`
itself whenever geolocation fails or reports a country other than IR or
MY (it is `fa_IR`/`ms_MY` for those two countries). -/
theorem pipelineFeedURL_unsupported_locale_amended (g : Nat → String)
    (feedEndpoint locale : String) (h : supportedLocales locale = false) :
    pipelineResolvedLocale locale = en ∧
    pipelineFeedURL g feedEndpoint locale = goSprintfS feedEndpoint (determineLocale g en) ∧
    (g 10 = "" → pipelineFeedURL g feedEndpoint locale = goSprintfS feedEndpoint en) ∧
    (goEqualFold "ir" (g 10) = false → goEqualFold "my" (g 10) = false →
      pipelineFeedURL g feedEndpoint locale = goSprintfS feedEndpoint en) := by
  have h1 : pipelineResolvedLocale locale = en := by
    simp [pipelineResolvedLocale, h]
  have h2 : pipelineFeedURL g feedEndpoint locale =
      goSprintfS feedEndpoint (determineLocale g en) := by
    rw [pipelineFeedURL, h1, getFeedURL]
  refine ⟨h1, h2, ?_, ?_⟩
  · intro hc
    rw [h2, determineLocale_en, if_pos hc]
  · intro hir hmy
    rw [h2, determineLocale_en, hir, hmy]
    simp

/-- C6, witness: the amended theorem at locale `"xx"` with a failed
geolocation lookup. -/
theorem pipelineFeedURL_unsupported_locale_amended_witness :
    pipelineFeedURL (fun _ => "") defaultFeedEndpoint "xx" = goSprintfS defaultFeedEndpoint en :=
  (pipelineFeedURL_unsupported_locale_amended (fun _ => "") defaultFeedEndpoint "xx"
    (by decide)).2.2.1 rfl

/-- A string that case-folds to `en_US` is non-empty. -/
theorem goEqualFold_en_ne_empty (d : String) (h : goEqualFold en d = true) : d ≠ "" := by
  intro he
  subst he
  exact absurd h (by decide)

/-- A string that case-folds to `ir` is non-empty. -/
theorem goEqualFold_ir_ne_empty (c : String) (h : goEqualFold "ir" c = true) : c ≠ "" := by
  intro he
  subst he
  exact absurd h (by decide)

/-- A string that case-folds to `my` is non-empty. -/
theorem goEqualFold_my_ne_empty (c : String) (h : goEqualFold "my" c = true) : c ≠ "" := by
  intro he
  subst he
  exact absurd h (by decide)

/-- A string that case-folds to `my` does not case-fold to `ir`. -/
theorem goEqualFold_my_not_ir (c : String) (h : goEqualFold "my" c = true) :
    goEqualFold "ir" c = false := by
  simp only [goEqualFold, beq_iff_eq] at h
  simp only [goEqualFold, beq_eq_false_iff_ne]
  rw [← h]
  decide

/-- C7: locale determination — an empty default behaves as `en_US`; when
the default case-folds to `en_US` the result is determined by the
10-second-bounded country lookup (`IR → fa_IR`, `MY → ms_MY`,
case-insensitively; failure or any other country yields the default
unchanged); when the default does not case-fold to `en_US`, geolocation is
skipped entirely (the result does not depend on the lookup) and the given
locale is returned as-is. -/
theorem determineLocale_spec :
    (∀ g : Nat → String, determineLocale g "" = determineLocale g en) ∧
    (∀ (g : Nat → String) (d : String), goEqualFold en d = true →
      (g 10 = "" → determineLocale g d = d) ∧
      (goEqualFold "ir" (g 10) = true → determineLocale g d = "fa_IR") ∧
      (goEqualFold "my" (g 10) = true → determineLocale g d = "ms_MY") ∧
      (goEqualFold "ir" (g 10) = false → goEqualFold "my" (g 10) = false →
        determineLocale g d = d)) ∧
    (∀ (g g' : Nat → String) (d : String), d ≠ "" → goEqualFold en d = false →
      determineLocale g d = d ∧ determineLocale g d = determineLocale g' d) := by
  refine ⟨?_, ?_, ?_⟩
  · intro g
    rfl
  · intro g d hfold
    have hdne : d ≠ "" := goEqualFold_en_ne_empty d hfold
    have hred : determineLocale g d = (if g 10 = "" then d
        else if goEqualFold "ir" (g 10) then "fa_IR"
        else if goEqualFold "my" (g 10) then "ms_MY" else d) := by
      simp only [determineLocale, if_neg hdne, hfold, Bool.not_true]
      simp
    refine ⟨?_, ?_, ?_, ?_⟩
    · intro hc
      rw [hred, if_pos hc]
    · intro hir
      have hcne : g 10 ≠ "" := goEqualFold_ir_ne_empty _ hir
      rw [hred, if_neg hcne, hir]
      simp
    · intro hmy
      have hcne : g 10 ≠ "" := goEqualFold_my_ne_empty _ hmy
      have hir : goEqualFold "ir" (g 10) = false := goEqualFold_my_not_ir _ hmy
      rw [hred, if_neg hcne, hir, hmy]
      simp
    · intro hir hmy
      rw [hred, hir, hmy]
      simp
  · intro g g' d hdne hfold
    constructor <;> simp [determineLocale, if_neg hdne, hfold]

/-- C7, witness: the default `en_US` with a lookup reporting `IR` resolves
to `fa_IR`. -/
theorem determineLocale_spec_witness :
    determineLocale (fun _ => "IR") "en_US" = "fa_IR" :=
  (determineLocale_spec.2.1 (fun _ => "IR") "en_US" (by decide)).2.1 (by decide)

/-- C8: looking up a feed by source name makes no `AddFeed` calls (and does
not fault) when the shared state is absent, its items map is absent, or the
name is not a key of it; otherwise it makes exactly one `AddFeed` call per
stored entry, in stored order, passing the entry's title, description,
image and link. -/
theorem FeedByName_spec (st : Option Feed) (name : String) :
    (st = none → FeedByName st name = []) ∧
    (∀ f, st = some f → f.items = none → FeedByName st name = []) ∧
    (∀ f itemsL, st = some f → f.items = some itemsL → assocLookup name itemsL = none →
      FeedByName st name = []) ∧
    (∀ f itemsL its, st = some f → f.items = some itemsL → assocLookup name itemsL = some its →
      FeedByName st name = its.map (fun i => (i.title, i.description, i.image, i.link))) := by
  refine ⟨?_, ?_, ?_, ?_⟩
  · intro h
    subst h
    rfl
  · intro f h hi
    subst h
    simp [FeedByName, hi]
  · intro f itemsL h hi hl
    subst h
    simp [FeedByName, hi, hl]
  · intro f itemsL its h hi hl
    subst h
    simp [FeedByName, hi, hl]

/-- C8, witness: a present state with one entry under `"bbc"` yields the
one `AddFeed` call with that entry's fields. -/
theorem FeedByName_spec_witness :
    FeedByName (some w8feed) "bbc" =
      [w8item].map (fun i => (i.title, i.description, i.image, i.link)) :=
  (FeedByName_spec (some w8feed) "bbc").2.2.2 w8feed [("bbc", [w8item])] [w8item] rfl rfl rfl

/-- C9: the `AddSource` pass visits the keys of `sortedSourceNames` in
order — a key resolving to a source with a non-empty title contributes
exactly one `AddSource` call with that title, while a missing key or an
empty title contributes nothing and processing continues; and a completed
(or bucket-panicking) normalization emits exactly this call sequence. -/
theorem sourceCalls_spec :
    (∀ (feeds : List (String × Source)) (key : String) (rest : List String),
      (assocLookup key feeds = none →
        sourceCalls feeds (key :: rest) = sourceCalls feeds rest) ∧
      (∀ src, assocLookup key feeds = some src → src.title = "" →
        sourceCalls feeds (key :: rest) = sourceCalls feeds rest) ∧
      (∀ src, assocLookup key feeds = some src → src.title ≠ "" →
        sourceCalls feeds (key :: rest) = src.title :: sourceCalls feeds rest)) ∧
    (∀ (allStr : String) (f : Feed) (es all : List FeedItem),
      deriveDescriptions f.entries = some es → buildAll f.feeds es = some all →
      (processFeed allStr f).2 = sourceCalls f.feeds f.sorted) := by
  constructor
  · intro feeds key rest
    refine ⟨?_, ?_, ?_⟩
    · intro h
      simp [sourceCalls, h]
    · intro src h ht
      simp [sourceCalls, h, ht]
    · intro src h ht
      simp [sourceCalls, h, ht]
  · intro allStr f es all hd ha
    simp only [processFeed, hd, ha]
    cases hb : buildBuckets es [(allStr, all)] f.feeds with
    | none => rfl
    | some items => rfl

/-- C9, witness: a key resolving to the non-empty title `"T9"` produces
exactly that `AddSource` call at the head of the sequence. -/
theorem sourceCalls_spec_witness :
    sourceCalls [("k", w9src)] ["k"] = w9src.title :: sourceCalls [("k", w9src)] [] :=
  (sourceCalls_spec.1 [("k", w9src)] "k" []).2.2 w9src rfl (by decide)

/-- C10: the description pass is total on documents whose meta
descriptions are absent, null or strings, and a present non-string meta
description (here the number 3) makes it — and the whole normalization —
fault via the unchecked `aDesc.(string)` assertion instead of falling back
to the entry's content. -/
theorem deriveDescriptions_nonstring_meta_faults :
    (∀ es : List FeedItem, (∀ e ∈ es, metaDescOk e = true) → deriveDescriptions es ≠ none) ∧
    metaDescOk badDescItem = false ∧
    deriveDescription badDescItem = none ∧
    (processFeed "allb" badDescDoc).1 = none := by
  refine ⟨?_, rfl, rfl, rfl⟩
  intro es
  induction es with
  | nil =>
    intro _
    simp [deriveDescriptions]
  | cons e es ih =>
    intro h
    have he : metaDescOk e = true := h e (by simp)
    have hd : ∃ d, deriveDescription e = some d := by
      cases hl : assocLookup "description" e.meta with
      | none => simp [deriveDescription, hl, descFromMeta]
      | some v =>
        cases v with
        | null => simp [deriveDescription, hl, descFromMeta]
        | str s => simp [deriveDescription, hl, descFromMeta]
        | bool b => simp [metaDescOk, hl] at he
        | num n => simp [metaDescOk, hl] at he
        | arr xs => simp [metaDescOk, hl] at he
        | obj fields => simp [metaDescOk, hl] at he
    obtain ⟨d, hd⟩ := hd
    have ht := ih (fun x hx => h x (by simp [hx]))
    simp only [deriveDescriptions, hd]
    cases hr : deriveDescriptions es with
    | none => exact absurd hr ht
    | some tail => simp

/-- C10, witness: the totality half applied to a one-entry document with a
string meta description. -/
theorem deriveDescriptions_nonstring_meta_faults_witness :
    deriveDescriptions [w10ok] ≠ none :=
  deriveDescriptions_nonstring_meta_faults.1 [w10ok] (by decide)

end LanternFeed
